import Mathlib

/-!
Verification of the RDMA file-transfer demo (client `rdma_file_client.c`,
server `rdma_file_server.c`).

The development shallowly embeds the protocol-relevant behaviour of the two
programs:

* the 64-bit byte-order helpers `htonll` / `ntohll` (both files define the
  same `#if __BYTE_ORDER == __LITTLE_ENDIAN` conditional, modelled here by an
  explicit `le : Bool` parameter selecting the little-endian branch);
* the sender's header-then-chunks message stream (client `main`);
* the receiver's header decode, write loop, and receive re-posting
  (server `main`);
* the resource acquisition / teardown traces of both `main` functions.

Machine integers are modelled as `Nat` with explicit bounds (`< 2 ^ 64`,
`< 2 ^ 32`, bytes `< 256`) where overflow or truncation matters.
-/

/-- Capacity of the single registered buffer: `#define BUF_SIZE 4096` in both
files. -/
def BUF_SIZE : Nat := 4096

/-- The 32-bit byte swap performed by the libc functions `htonl` / `ntohl` on
a little-endian host (external library semantics: the four bytes of the
argument are reversed).  Arguments at both call sites are `< 2 ^ 32`. -/
def bswap32 (x : Nat) : Nat :=
  x % 256 * 16777216 + x / 256 % 256 * 65536 + x / 65536 % 256 * 256 + x / 16777216 % 256

/-- Libc `htonl`: byte swap on a little-endian host, identity on big-endian. -/
def htonl (le : Bool) (x : Nat) : Nat :=
  if le then bswap32 x else x

/-- Libc `ntohl`: byte swap on a little-endian host, identity on big-endian. -/
def ntohl (le : Bool) (x : Nat) : Nat :=
  if le then bswap32 x else x

/-- Client `htonll` (rdma_file_client.c lines 15-21): on a little-endian host
`(((uint64_t)htonl(x & 0xFFFFFFFFULL)) << 32) | htonl(x >> 32)`, on a
big-endian host the identity. -/
def htonll (le : Bool) (x : Nat) : Nat :=
  if le then ((htonl le (x &&& 4294967295)) <<< 32) ||| htonl le (x >>> 32) else x

/-- Server `ntohll` (rdma_file_server.c lines 16-22): on a little-endian host
`(((uint64_t)ntohl(x & 0xFFFFFFFFULL)) << 32) | ntohl(x >> 32)`, on a
big-endian host the identity. -/
def ntohll (le : Bool) (x : Nat) : Nat :=
  if le then ((ntohl le (x &&& 4294967295)) <<< 32) ||| ntohl le (x >>> 32) else x

/-- Little-endian byte image of a 64-bit value, as laid down in the channel
buffer by `memcpy(buf, &net_size, sizeof(net_size))` on a little-endian
host. -/
def leBytes8 (v : Nat) : List Nat :=
  [v % 256, v / 256 % 256, v / 65536 % 256, v / 16777216 % 256,
   v / 4294967296 % 256, v / 1099511627776 % 256, v / 281474976710656 % 256,
   v / 72057594037927936 % 256]

/-- Big-endian byte image of a 64-bit value (the `memcpy` layout on a
big-endian host). -/
def beBytes8 (v : Nat) : List Nat := (leBytes8 v).reverse

/-- Memory image of the 8-byte integer `v` as stored by `memcpy` on a host of
the given endianness. -/
def store64 (le : Bool) (v : Nat) : List Nat :=
  if le then leBytes8 v else beBytes8 v

/-- Value of the first 8 bytes read back as a 64-bit integer on a
little-endian host. -/
def leVal8 (bs : List Nat) : Nat :=
  bs.getD 0 0 + bs.getD 1 0 * 256 + bs.getD 2 0 * 65536 + bs.getD 3 0 * 16777216 +
    bs.getD 4 0 * 4294967296 + bs.getD 5 0 * 1099511627776 +
    bs.getD 6 0 * 281474976710656 + bs.getD 7 0 * 72057594037927936

/-- Value of the first 8 bytes read as a big-endian 64-bit integer (also the
spec's notion of the header's declared length). -/
def beVal8 (bs : List Nat) : Nat :=
  bs.getD 0 0 * 72057594037927936 + bs.getD 1 0 * 281474976710656 +
    bs.getD 2 0 * 1099511627776 + bs.getD 3 0 * 4294967296 +
    bs.getD 4 0 * 16777216 + bs.getD 5 0 * 65536 + bs.getD 6 0 * 256 + bs.getD 7 0

/-- The 64-bit load performed by `memcpy(&net_size, buf, sizeof(net_size))`
on a host of the given endianness. -/
def load64 (le : Bool) (bs : List Nat) : Nat :=
  if le then leVal8 bs else beVal8 bs

/-- The chunk sequence produced by the client's read loop
(rdma_file_client.c lines 94-103): `fread(buf, 1, BUF_SIZE, f)` returns up
to `BUF_SIZE` bytes of the remaining content and the loop sends exactly the
bytes read, until `fread` returns 0. -/
def chunks (c : List Nat) : List (List Nat) :=
  if h : c = [] then []
  else c.take BUF_SIZE :: chunks (c.drop BUF_SIZE)
termination_by c.length
decreasing_by
  simp only [List.length_drop]
  have hl : 0 < c.length := List.length_pos.mpr h
  have hb : 0 < BUF_SIZE := by decide
  omega

/-- Result of one client run: the messages posted on the queue pair in
order, and whether the run reached the final success message (client
line 106) rather than calling `exit(1)`. -/
structure SenderResult where
  msgs : List (List Nat)
  ok : Bool
deriving DecidableEq

/-- The client's data loop (rdma_file_client.c lines 95-103): each chunk is
posted as one send; the run aborts via `exit(1)` if the completion for that
send reports a non-success status.  `sends i` is the completion status the
channel reports for send number `i`. -/
def sendLoop (sends : Nat → Bool) : List (List Nat) → Nat → List (List Nat) × Bool
  | [], _ => ([], true)
  | m :: rest, i =>
    if sends i then
      let r := sendLoop sends rest (i + 1)
      (m :: r.1, r.2)
    else ([m], false)

/-- One client run (rdma_file_client.c lines 84-106): send the 8-byte
header `htonll(file_size)` copied into the buffer, then send the file
content in `BUF_SIZE`-sized chunks; report success when the read loop ends.
`declared` is the `stat` size placed in the header; `content` is what
`fread` actually yields, which may be shorter if the file shrank. -/
def senderRun (le : Bool) (declared : Nat) (content : List Nat)
    (sends : Nat → Bool) : SenderResult :=
  let header := store64 le (htonll le declared)
  if sends 0 then
    let r := sendLoop sends (chunks content) 1
    ⟨header :: r.1, r.2⟩
  else ⟨[header], false⟩

/-- One receive completion as observed by the server: the reported status
(`wc.status == IBV_WC_SUCCESS`) and the delivered bytes (whose length is
`wc.byte_len`). -/
structure Delivery where
  ok : Bool
  data : List Nat
deriving DecidableEq

/-- Observable final state of a server run that got past the header: the
printed byte count `total`, the bytes written to `received_file.bin`, the
number of receive work requests still outstanding (posted but not matched
by a completion), and whether the loop ended through a `break` on a failed
completion or failed `write`. -/
structure RecvResult where
  total : Nat
  file : List Nat
  outstanding : Nat
  aborted : Bool
deriving DecidableEq

/-- Outcome of a server run: `exit(1)` on a failed header completion, or on
an undersized header, or the final state of the write loop. -/
inductive RecvOutcome where
  | headerRecvFailed : RecvOutcome
  | headerTooSmall : RecvOutcome
  | done : RecvResult → RecvOutcome
deriving DecidableEq

/-- The server's write loop (rdma_file_server.c lines 87-99).  `ws i g` is
the return value of write number `i` when asked to write `g` bytes: `none`
models a negative return, `some w` a return of `w`.  `none` as the overall
result means the deliveries ran out while the loop was still busy-polling
for the next completion. -/
def recvLoop (fileSize : Nat) (ws : Nat → Nat → Option Nat) :
    List Delivery → Nat → Nat → List Nat → Nat → Option RecvResult
  | [], _, total, file, outstanding =>
    if total < fileSize then none
    else some ⟨total, file, outstanding, false⟩
  | d :: rest, widx, total, file, outstanding =>
    if total < fileSize then
      if d.ok then
        let got := d.data.length
        if 0 < got then
          match ws widx got with
          | some w =>
            recvLoop fileSize ws rest (widx + 1) (total + w) (file ++ d.data.take w)
              (outstanding - 1 + 1)
          | none => some ⟨total, file, outstanding - 1, true⟩
        else recvLoop fileSize ws rest widx total file (outstanding - 1 + 1)
      else some ⟨total, file, outstanding - 1, true⟩
    else some ⟨total, file, outstanding, false⟩

/-- One server run (rdma_file_server.c lines 64-101): post the initial
receive, wait for the header completion (`exit(1)` if it failed or
delivered fewer than 8 bytes), decode `ntohll` of the 8 bytes `memcpy`-ed
out of the buffer, re-post a receive, then run the write loop. -/
def receiverRun (le : Bool) (ds : List Delivery) (ws : Nat → Nat → Option Nat) :
    Option RecvOutcome :=
  match ds with
  | [] => none
  | h :: rest =>
    if h.ok then
      if h.data.length < 8 then some RecvOutcome.headerTooSmall
      else
        match recvLoop (ntohll le (load64 le h.data)) ws rest 0 0 [] 1 with
        | none => none
        | some r => some (RecvOutcome.done r)
    else some RecvOutcome.headerRecvFailed

/-- Whether a server outcome ever opened `received_file.bin`: the
`open` call (line 84) sits after the header size check (lines 76-78), so
the undersized-header exit happens with the destination file untouched. -/
def opensFile : RecvOutcome → Bool
  | RecvOutcome.done _ => true
  | _ => false

/-- Writes that always succeed in full, the behaviour assumed of the local
file system in the round-trip property. -/
def idealWrites : Nat → Nat → Option Nat := fun _ g => some g

/-- Sum of the delivered byte counts of a list of completions. -/
def sumLen (ds : List Delivery) : Nat := (ds.map (fun d => d.data.length)).sum

/-- The kernel-level resources handled by either role. -/
inductive RRes where
  | eventChannel : RRes
  | connId : RRes
  | listenId : RRes
  | pd : RRes
  | cq : RRes
  | qp : RRes
  | mr : RRes
  | buffer : RRes
deriving DecidableEq

/-- Acquisition and release events for the resource-lifecycle traces. -/
inductive REvent where
  | acq : RRes → REvent
  | rel : RRes → REvent
deriving DecidableEq

/-- The client's resource events on the successful path, in program order
(rdma_file_client.c: acquisitions lines 29-62, teardown lines 108-113).
`ibv_destroy_cq` and `ibv_dealloc_pd` are never called. -/
def clientTrace : List REvent :=
  [REvent.acq RRes.eventChannel, REvent.acq RRes.buffer, REvent.acq RRes.connId,
   REvent.acq RRes.pd, REvent.acq RRes.cq, REvent.acq RRes.qp, REvent.acq RRes.mr,
   REvent.rel RRes.qp, REvent.rel RRes.mr, REvent.rel RRes.buffer,
   REvent.rel RRes.connId, REvent.rel RRes.eventChannel]

/-- The server's resource events on the successful path, in program order
(rdma_file_server.c: acquisitions lines 25-58, teardown lines 104-110).
`ibv_destroy_cq` and `ibv_dealloc_pd` are never called. -/
def serverTrace : List REvent :=
  [REvent.acq RRes.eventChannel, REvent.acq RRes.buffer, REvent.acq RRes.listenId,
   REvent.acq RRes.connId, REvent.acq RRes.pd, REvent.acq RRes.cq, REvent.acq RRes.qp,
   REvent.acq RRes.mr,
   REvent.rel RRes.qp, REvent.rel RRes.mr, REvent.rel RRes.buffer,
   REvent.rel RRes.connId, REvent.rel RRes.listenId, REvent.rel RRes.eventChannel]

/-- Resource releases performed by the client on any of its `exit(1)` error
paths (e.g. a failed post at line 89 or 100, a failed completion at line 91
or 102): each such path is `perror`/`fprintf` followed directly by
`exit(1)`, so nothing is released. -/
def clientErrorPathReleases : List REvent := []

/-- Resource releases performed by the server on any of its `exit(1)` error
paths (lines 65, 74, 77, 82, 85, 98): nothing is released. -/
def serverErrorPathReleases : List REvent := []

/-- The releases of a trace, in order. -/
def releasesOf (t : List REvent) : List REvent :=
  t.filter (fun e => match e with | REvent.rel _ => true | _ => false)

theorem bswap32_lt (x : Nat) : bswap32 x < 2 ^ 32 := by
  unfold bswap32
  omega

/-- Byte extraction through `bswap32` on an explicit four-byte decomposition. -/
theorem bswap32_bytes (b0 b1 b2 b3 : Nat) (h0 : b0 < 256) (h1 : b1 < 256)
    (h2 : b2 < 256) (h3 : b3 < 256) :
    bswap32 (b0 * 16777216 + b1 * 65536 + b2 * 256 + b3) =
      b3 * 16777216 + b2 * 65536 + b1 * 256 + b0 := by
  unfold bswap32
  omega

theorem bswap32_bswap32 (x : Nat) (h : x < 2 ^ 32) : bswap32 (bswap32 x) = x := by
  have he : bswap32 x =
      x % 256 * 16777216 + x / 256 % 256 * 65536 + x / 65536 % 256 * 256 +
        x / 16777216 % 256 := rfl
  rw [he, bswap32_bytes _ _ _ _ (by omega) (by omega) (by omega) (by omega)]
  have e1 : x / 256 / 256 = x / 65536 := by
    rw [Nat.div_div_eq_div_mul]
  have e2 : x / 65536 / 256 = x / 16777216 := by
    rw [Nat.div_div_eq_div_mul]
  omega

/-- Recombination of a high word shifted by 32 with a low word below `2 ^ 32`:
the bitwise or is ordinary addition. -/
theorem shiftLeft32_lor_eq_add (a b : Nat) (hb : b < 2 ^ 32) :
    (a <<< 32) ||| b = a * 2 ^ 32 + b := by
  apply Nat.eq_of_testBit_eq
  intro i
  rw [Nat.testBit_lor, Nat.testBit_shiftLeft]
  rcases Nat.lt_or_ge i 32 with h | h
  · have h32 : ¬ (32 ≤ i) := by omega
    rw [decide_eq_false h32]
    simp only [Bool.false_and, Bool.false_or]
    rw [Nat.testBit_to_div_mod, Nat.testBit_to_div_mod]
    have h1 : (2 : Nat) ^ 32 = 2 ^ i * (2 ^ (31 - i) * 2) := by
      rw [← Nat.pow_succ, ← Nat.pow_add]
      congr 1
      omega
    have h2 : a * 2 ^ 32 + b = b + a * (2 ^ (31 - i) * 2) * 2 ^ i := by
      rw [h1]; ring
    have hdiv : (a * 2 ^ 32 + b) / 2 ^ i = b / 2 ^ i + a * (2 ^ (31 - i) * 2) := by
      rw [h2, Nat.add_mul_div_right _ _ (Nat.two_pow_pos i)]
    rw [hdiv]
    have h3 : (b / 2 ^ i + a * (2 ^ (31 - i) * 2)) % 2 = b / 2 ^ i % 2 := by
      have h4 : a * (2 ^ (31 - i) * 2) = a * 2 ^ (31 - i) * 2 := by ring
      rw [h4, Nat.add_mul_mod_self_right]
    rw [h3]
  · have h32 : 32 ≤ i := h
    have hbb : b.testBit i = false := by
      apply Nat.testBit_lt_two_pow
      calc b < 2 ^ 32 := hb
        _ ≤ 2 ^ i := Nat.pow_le_pow_right (by omega) h32
    rw [decide_eq_true h32]
    simp only [Bool.true_and, hbb, Bool.or_false]
    rw [Nat.testBit_to_div_mod, Nat.testBit_to_div_mod]
    have hpow : (2 : Nat) ^ i = 2 ^ 32 * 2 ^ (i - 32) := by
      rw [← Nat.pow_add]
      congr 1
      omega
    have h4 : (a * 2 ^ 32 + b) / 2 ^ 32 = a := by
      rw [Nat.mul_comm a (2 ^ 32), Nat.mul_add_div (Nat.two_pow_pos 32)]
      omega
    have hdiv : (a * 2 ^ 32 + b) / 2 ^ i = a / 2 ^ (i - 32) := by
      rw [hpow, ← Nat.div_div_eq_div_mul, h4]
    rw [hdiv]

theorem htonll_true_eq (x : Nat) :
    htonll true x = bswap32 (x % 2 ^ 32) * 2 ^ 32 + bswap32 (x / 2 ^ 32) := by
  have h0 : htonll true x = ((bswap32 (x &&& 4294967295)) <<< 32) ||| bswap32 (x >>> 32) := rfl
  have hm : (4294967295 : Nat) = 2 ^ 32 - 1 := by norm_num
  rw [h0, hm, Nat.and_pow_two_sub_one_eq_mod, Nat.shiftRight_eq_div_pow]
  exact shiftLeft32_lor_eq_add _ _ (bswap32_lt _)

theorem ntohll_true_eq (x : Nat) :
    ntohll true x = bswap32 (x % 2 ^ 32) * 2 ^ 32 + bswap32 (x / 2 ^ 32) := by
  have h0 : ntohll true x = ((bswap32 (x &&& 4294967295)) <<< 32) ||| bswap32 (x >>> 32) := rfl
  have hm : (4294967295 : Nat) = 2 ^ 32 - 1 := by norm_num
  rw [h0, hm, Nat.and_pow_two_sub_one_eq_mod, Nat.shiftRight_eq_div_pow]
  exact shiftLeft32_lor_eq_add _ _ (bswap32_lt _)

/-- Big-endian encode followed by decode is the identity on 64-bit values,
for either host byte order. -/
theorem ntohll_htonll (le : Bool) (x : Nat) (h : x < 2 ^ 64) :
    ntohll le (htonll le x) = x := by
  cases le with
  | false => simp [htonll, ntohll]
  | true =>
    rw [htonll_true_eq, ntohll_true_eq]
    have h1 : bswap32 (x / 2 ^ 32) < 2 ^ 32 := bswap32_lt _
    have h2 : bswap32 (x % 2 ^ 32) < 2 ^ 32 := bswap32_lt _
    have hmod : (bswap32 (x % 2 ^ 32) * 2 ^ 32 + bswap32 (x / 2 ^ 32)) % 2 ^ 32 =
        bswap32 (x / 2 ^ 32) := by
      omega
    have hdiv : (bswap32 (x % 2 ^ 32) * 2 ^ 32 + bswap32 (x / 2 ^ 32)) / 2 ^ 32 =
        bswap32 (x % 2 ^ 32) := by
      omega
    rw [hmod, hdiv]
    rw [bswap32_bswap32 _ (by omega)]
    rw [bswap32_bswap32 _ (by omega)]
    omega

theorem htonll_lt (le : Bool) (x : Nat) (h : x < 2 ^ 64) : htonll le x < 2 ^ 64 := by
  cases le with
  | false => simpa [htonll] using h
  | true =>
    rw [htonll_true_eq]
    have h1 : bswap32 (x % 2 ^ 32) < 2 ^ 32 := bswap32_lt _
    have h2 : bswap32 (x / 2 ^ 32) < 2 ^ 32 := bswap32_lt _
    omega

theorem bswap32_bytes_lo (b0 b1 b2 b3 : Nat) (h0 : b0 < 256) (h1 : b1 < 256)
    (h2 : b2 < 256) (h3 : b3 < 256) :
    bswap32 (b0 + b1 * 256 + b2 * 65536 + b3 * 16777216) =
      b0 * 16777216 + b1 * 65536 + b2 * 256 + b3 := by
  unfold bswap32
  omega

theorem store64_length (le : Bool) (v : Nat) : (store64 le v).length = 8 := by
  cases le <;> simp [store64, leBytes8, beBytes8]

theorem load64_store64 (le : Bool) (v : Nat) (h : v < 2 ^ 64) :
    load64 le (store64 le v) = v := by
  have e1 : v / 256 / 256 = v / 65536 := by rw [Nat.div_div_eq_div_mul]
  have e2 : v / 65536 / 256 = v / 16777216 := by rw [Nat.div_div_eq_div_mul]
  have e3 : v / 16777216 / 256 = v / 4294967296 := by rw [Nat.div_div_eq_div_mul]
  have e4 : v / 4294967296 / 256 = v / 1099511627776 := by rw [Nat.div_div_eq_div_mul]
  have e5 : v / 1099511627776 / 256 = v / 281474976710656 := by rw [Nat.div_div_eq_div_mul]
  have e6 : v / 281474976710656 / 256 = v / 72057594037927936 := by
    rw [Nat.div_div_eq_div_mul]
  cases le with
  | true =>
    simp only [load64, store64, leBytes8, leVal8, if_pos, List.getD_cons_zero,
      List.getD_cons_succ]
    omega
  | false =>
    simp [load64, store64, beBytes8, leBytes8, beVal8]
    omega

/-- Membership index bound: every byte read by `getD` below the length is a
member of the list. -/
theorem getD_lt_of_mem_lt (bs : List Nat) (hb : ∀ b ∈ bs, b < 256) (i : Nat)
    (hi : i < bs.length) : bs.getD i 0 < 256 := by
  have : bs.getD i 0 ∈ bs := by
    rw [List.getD_eq_get bs 0 hi]
    exact List.get_mem bs i hi
  exact hb _ this

/-- The receiver's header decode (`ntohll` of the `memcpy`-ed 8 bytes) is
the big-endian value of the first 8 delivered bytes, on either host. -/
theorem ntohll_load64_eq_beVal8 (le : Bool) (bs : List Nat) (hl : 8 ≤ bs.length)
    (hb : ∀ b ∈ bs, b < 256) : ntohll le (load64 le bs) = beVal8 bs := by
  have h0 : bs.getD 0 0 < 256 := getD_lt_of_mem_lt bs hb 0 (by omega)
  have h1 : bs.getD 1 0 < 256 := getD_lt_of_mem_lt bs hb 1 (by omega)
  have h2 : bs.getD 2 0 < 256 := getD_lt_of_mem_lt bs hb 2 (by omega)
  have h3 : bs.getD 3 0 < 256 := getD_lt_of_mem_lt bs hb 3 (by omega)
  have h4 : bs.getD 4 0 < 256 := getD_lt_of_mem_lt bs hb 4 (by omega)
  have h5 : bs.getD 5 0 < 256 := getD_lt_of_mem_lt bs hb 5 (by omega)
  have h6 : bs.getD 6 0 < 256 := getD_lt_of_mem_lt bs hb 6 (by omega)
  have h7 : bs.getD 7 0 < 256 := getD_lt_of_mem_lt bs hb 7 (by omega)
  cases le with
  | false => simp [ntohll, load64]
  | true =>
    have hld : load64 true bs = leVal8 bs := rfl
    rw [hld, ntohll_true_eq]
    have hm : leVal8 bs % 2 ^ 32 =
        bs.getD 0 0 + bs.getD 1 0 * 256 + bs.getD 2 0 * 65536 + bs.getD 3 0 * 16777216 := by
      unfold leVal8
      omega
    have hd : leVal8 bs / 2 ^ 32 =
        bs.getD 4 0 + bs.getD 5 0 * 256 + bs.getD 6 0 * 65536 + bs.getD 7 0 * 16777216 := by
      unfold leVal8
      omega
    rw [hm, hd, bswap32_bytes_lo _ _ _ _ h0 h1 h2 h3, bswap32_bytes_lo _ _ _ _ h4 h5 h6 h7]
    unfold beVal8
    omega

theorem chunks_nil : chunks [] = [] := by
  unfold chunks
  simp

theorem chunks_cons (c : List Nat) (h : c ≠ []) :
    chunks c = c.take BUF_SIZE :: chunks (c.drop BUF_SIZE) := by
  rw [chunks]
  simp [h]

theorem chunks_flatten (c : List Nat) : (chunks c).flatten = c := by
  induction c using chunks.induct with
  | case1 =>
    rw [chunks_nil]
    rfl
  | case2 c h ih =>
    rw [chunks_cons c h, List.flatten_cons, ih, List.take_append_drop]

theorem chunks_length (c : List Nat) : (chunks c).length = (c.length + 4095) / 4096 := by
  induction c using chunks.induct with
  | case1 =>
    rw [chunks_nil]
    simp
  | case2 c h ih =>
    rw [chunks_cons c h]
    have hl : 0 < c.length := List.length_pos.mpr h
    simp only [List.length_cons, ih, List.length_drop]
    simp only [BUF_SIZE]
    omega

theorem chunks_mem (c : List Nat) :
    ∀ m ∈ chunks c, 0 < m.length ∧ m.length ≤ BUF_SIZE := by
  induction c using chunks.induct with
  | case1 =>
    intro m hm
    rw [chunks_nil] at hm
    cases hm
  | case2 c h ih =>
    intro m hm
    rw [chunks_cons c h] at hm
    have hl : 0 < c.length := List.length_pos.mpr h
    cases hm with
    | head =>
      have hb : 0 < BUF_SIZE := by decide
      constructor
      · simp only [List.length_take]
        omega
      · simp only [List.length_take]
        omega
    | tail _ hmem => exact ih m hmem

theorem sendLoop_all_true (ms : List (List Nat)) :
    ∀ i, sendLoop (fun _ => true) ms i = (ms, true) := by
  induction ms with
  | nil => intro i; rfl
  | cons m rest ih =>
    intro i
    simp [sendLoop, ih (i + 1)]

theorem sumLen_cons (d : Delivery) (rest : List Delivery) :
    sumLen (d :: rest) = d.data.length + sumLen rest := by
  simp [sumLen]

theorem recvLoop_exit (fs : Nat) (ws : Nat → Nat → Option Nat) (ds : List Delivery)
    (widx total : Nat) (file : List Nat) (out : Nat) (h : ¬ total < fs) :
    recvLoop fs ws ds widx total file out = some ⟨total, file, out, false⟩ := by
  cases ds <;> simp [recvLoop, h]

theorem recvLoop_nil (fs : Nat) (ws : Nat → Nat → Option Nat) (widx total : Nat)
    (file : List Nat) (out : Nat) (h : total < fs) :
    recvLoop fs ws [] widx total file out = none := by
  simp [recvLoop, h]

theorem recvLoop_cons_ok (fs : Nat) (ws : Nat → Nat → Option Nat) (d : Delivery)
    (rest : List Delivery) (widx total : Nat) (file : List Nat) (out w : Nat)
    (hlt : total < fs) (hok : d.ok = true) (hpos : 0 < d.data.length)
    (hw : ws widx d.data.length = some w) :
    recvLoop fs ws (d :: rest) widx total file out =
      recvLoop fs ws rest (widx + 1) (total + w) (file ++ d.data.take w) (out - 1 + 1) := by
  simp [recvLoop, hlt, hok, hpos, hw]

theorem recvLoop_cons_zero (fs : Nat) (ws : Nat → Nat → Option Nat) (d : Delivery)
    (rest : List Delivery) (widx total : Nat) (file : List Nat) (out : Nat)
    (hlt : total < fs) (hok : d.ok = true) (hz : d.data.length = 0) :
    recvLoop fs ws (d :: rest) widx total file out =
      recvLoop fs ws rest widx total file (out - 1 + 1) := by
  simp [recvLoop, hlt, hok, hz]

theorem recvLoop_cons_failed (fs : Nat) (ws : Nat → Nat → Option Nat) (d : Delivery)
    (rest : List Delivery) (widx total : Nat) (file : List Nat) (out : Nat)
    (hlt : total < fs) (hok : d.ok = false) :
    recvLoop fs ws (d :: rest) widx total file out = some ⟨total, file, out - 1, true⟩ := by
  simp [recvLoop, hlt, hok]

theorem recvLoop_cons_werr (fs : Nat) (ws : Nat → Nat → Option Nat) (d : Delivery)
    (rest : List Delivery) (widx total : Nat) (file : List Nat) (out : Nat)
    (hlt : total < fs) (hok : d.ok = true) (hpos : 0 < d.data.length)
    (hw : ws widx d.data.length = none) :
    recvLoop fs ws (d :: rest) widx total file out = some ⟨total, file, out - 1, true⟩ := by
  simp [recvLoop, hlt, hok, hpos, hw]

theorem receiverRun_cons_ok (le : Bool) (h : Delivery) (rest : List Delivery)
    (ws : Nat → Nat → Option Nat) (hok : h.ok = true) (hlen : ¬ h.data.length < 8) :
    receiverRun le (h :: rest) ws =
      (recvLoop (ntohll le (load64 le h.data)) ws rest 0 0 [] 1).map RecvOutcome.done := by
  cases hr : recvLoop (ntohll le (load64 le h.data)) ws rest 0 0 [] 1 <;>
    simp [receiverRun, hok, hlen, hr]

/-- The honest-channel run of the write loop: each chunk of the remaining
content arrives as one successful completion and every write succeeds in
full, so the loop consumes exactly the chunks, appends them to the file,
and exits normally with the same number of outstanding receives. -/
theorem recvLoop_chunks (c : List Nat) :
    ∀ widx total file out, 0 < out →
      recvLoop (total + c.length) idealWrites
          ((chunks c).map (fun m => Delivery.mk true m)) widx total file out =
        some ⟨total + c.length, file ++ c, out, false⟩ := by
  induction c using chunks.induct with
  | case1 =>
    intro widx total file out hout
    rw [chunks_nil]
    simp only [List.map_nil, List.length_nil, Nat.add_zero]
    rw [recvLoop_exit _ _ _ _ _ _ _ (by omega)]
    simp
  | case2 c h ih =>
    intro widx total file out hout
    have hl : 0 < c.length := List.length_pos.mpr h
    have hb : 0 < BUF_SIZE := by decide
    rw [chunks_cons c h]
    simp only [List.map_cons]
    have hpos : 0 < (Delivery.mk true (c.take BUF_SIZE)).data.length := by
      simp only [List.length_take]
      omega
    have hlt : total < total + c.length := by omega
    rw [recvLoop_cons_ok _ _ _ _ _ _ _ _ ((c.take BUF_SIZE).length) hlt rfl hpos rfl]
    have hto : (Delivery.mk true (c.take BUF_SIZE)).data.take ((c.take BUF_SIZE).length) =
        c.take BUF_SIZE := List.take_length _
    rw [hto]
    have ho : out - 1 + 1 = out := by omega
    rw [ho]
    have hfs : total + c.length = total + (c.take BUF_SIZE).length + (c.drop BUF_SIZE).length := by
      simp only [List.length_take, List.length_drop]
      omega
    rw [hfs, ih _ _ _ _ (by omega)]
    rw [List.append_assoc, List.take_append_drop]

/-- Core invariants of the write loop: the printed total never decreases,
a normal exit only happens once the total has reached the declared size,
and a normal exit leaves the outstanding-receive count unchanged. -/
theorem recvLoop_invariant (fs : Nat) (ws : Nat → Nat → Option Nat) :
    ∀ ds widx total file out r,
      recvLoop fs ws ds widx total file out = some r →
      total ≤ r.total ∧
        (r.aborted = false → fs ≤ r.total ∧ (0 < out → r.outstanding = out)) := by
  intro ds
  induction ds with
  | nil =>
    intro widx total file out r h
    by_cases hlt : total < fs
    · rw [recvLoop_nil _ _ _ _ _ _ hlt] at h
      cases h
    · rw [recvLoop_exit _ _ _ _ _ _ _ hlt] at h
      injection h with h2
      rw [← h2]
      exact ⟨Nat.le_refl _, fun _ => ⟨Nat.le_of_not_lt hlt, fun _ => rfl⟩⟩
  | cons d rest ih =>
    intro widx total file out r h
    by_cases hlt : total < fs
    · by_cases hok : d.ok = true
      · by_cases hpos : 0 < d.data.length
        · cases hwc : ws widx d.data.length with
          | some w =>
            rw [recvLoop_cons_ok _ _ _ _ _ _ _ _ w hlt hok hpos hwc] at h
            have hrec := ih _ _ _ _ _ h
            refine ⟨by omega, fun hab => ⟨(hrec.2 hab).1, fun hout => ?_⟩⟩
            have := (hrec.2 hab).2 (by omega)
            omega
          | none =>
            rw [recvLoop_cons_werr _ _ _ _ _ _ _ _ hlt hok hpos hwc] at h
            injection h with h2
            rw [← h2]
            refine ⟨Nat.le_refl _, fun hab => by cases hab⟩
        · have hz : d.data.length = 0 := by omega
          rw [recvLoop_cons_zero _ _ _ _ _ _ _ _ hlt hok hz] at h
          have hrec := ih _ _ _ _ _ h
          refine ⟨hrec.1, fun hab => ⟨(hrec.2 hab).1, fun hout => ?_⟩⟩
          have := (hrec.2 hab).2 (by omega)
          omega
      · have hko : d.ok = false := by
          cases hdo : d.ok
          · rfl
          · exact absurd hdo hok
        rw [recvLoop_cons_failed _ _ _ _ _ _ _ _ hlt hko] at h
        injection h with h2
        rw [← h2]
        refine ⟨Nat.le_refl _, fun hab => by cases hab⟩
    · rw [recvLoop_exit _ _ _ _ _ _ _ hlt] at h
      injection h with h2
      rw [← h2]
      exact ⟨Nat.le_refl _, fun _ => ⟨Nat.le_of_not_lt hlt, fun _ => rfl⟩⟩

/-- Upper bound for the write loop: when each `write` returns at most the
requested count (the kernel contract) and the delivered byte counts fit
inside the declared size, the total never exceeds the declared size. -/
theorem recvLoop_le_of_fits (fs : Nat) (ws : Nat → Nat → Option Nat)
    (hws : ∀ i g w, ws i g = some w → w ≤ g) :
    ∀ ds widx total file out r,
      recvLoop fs ws ds widx total file out = some r →
      total + sumLen ds ≤ fs → r.total ≤ fs := by
  intro ds
  induction ds with
  | nil =>
    intro widx total file out r h hfit
    by_cases hlt : total < fs
    · rw [recvLoop_nil _ _ _ _ _ _ hlt] at h
      cases h
    · rw [recvLoop_exit _ _ _ _ _ _ _ hlt] at h
      injection h with h2
      rw [← h2]
      simp only [sumLen, List.map_nil, List.sum_nil] at hfit
      show total ≤ fs
      omega
  | cons d rest ih =>
    intro widx total file out r h hfit
    rw [sumLen_cons] at hfit
    by_cases hlt : total < fs
    · by_cases hok : d.ok = true
      · by_cases hpos : 0 < d.data.length
        · cases hwc : ws widx d.data.length with
          | some w =>
            rw [recvLoop_cons_ok _ _ _ _ _ _ _ _ w hlt hok hpos hwc] at h
            have hwle : w ≤ d.data.length := hws _ _ _ hwc
            exact ih _ _ _ _ _ h (by omega)
          | none =>
            rw [recvLoop_cons_werr _ _ _ _ _ _ _ _ hlt hok hpos hwc] at h
            injection h with h2
            rw [← h2]
            show total ≤ fs
            omega
        · have hz : d.data.length = 0 := by omega
          rw [recvLoop_cons_zero _ _ _ _ _ _ _ _ hlt hok hz] at h
          exact ih _ _ _ _ _ h (by omega)
      · have hko : d.ok = false := by
          cases hdo : d.ok
          · rfl
          · exact absurd hdo hok
        rw [recvLoop_cons_failed _ _ _ _ _ _ _ _ hlt hko] at h
        injection h with h2
        rw [← h2]
        show total ≤ fs
        omega
    · rw [recvLoop_exit _ _ _ _ _ _ _ hlt] at h
      injection h with h2
      rw [← h2]
      show total ≤ fs
      omega

/-- All-zero deliveries keep the loop spinning: no finite list of
successful zero-byte completions can terminate the write loop once the
declared size exceeds the current total. -/
theorem recvLoop_zero_stuck (fs : Nat) (ws : Nat → Nat → Option Nat) :
    ∀ ds widx total file out,
      (∀ d ∈ ds, d.ok = true ∧ d.data.length = 0) → total < fs →
      recvLoop fs ws ds widx total file out = none := by
  intro ds
  induction ds with
  | nil =>
    intro widx total file out _ hlt
    exact recvLoop_nil _ _ _ _ _ _ hlt
  | cons d rest ih =>
    intro widx total file out hz hlt
    have hd := hz d (List.mem_cons_self d rest)
    rw [recvLoop_cons_zero _ _ _ _ _ _ _ _ hlt hd.1 hd.2]
    exact ih _ _ _ _ (fun x hx => hz x (List.mem_cons_of_mem d hx)) hlt

/-- The client run in which every send completion succeeds: the posted
messages are the 8-byte header followed by the chunks of the content that
`fread` yielded, and the run reports success unconditionally — `main` never
compares the bytes read against the declared size. -/
theorem senderRun_all_true (le : Bool) (declared : Nat) (content : List Nat) :
    senderRun le declared content (fun _ => true) =
      ⟨store64 le (htonll le declared) :: chunks content, true⟩ := by
  simp [senderRun, sendLoop_all_true]

theorem chunks_small (l : List Nat) (h0 : l ≠ []) (h1 : l.length ≤ BUF_SIZE) :
    chunks l = [l] := by
  rw [chunks_cons l h0, List.take_of_length_le h1, List.drop_eq_nil_of_le h1, chunks_nil]

/-- Claim C1: for every file content `C`, running the sender against the
receiver over a reliable in-order channel that delivers each posted send as
one successful receive completion with its exact byte count yields a
destination file byte-identical to `C` and a final received total equal to
`C.length`. -/
theorem c1_round_trip (le : Bool) (C : List Nat) (hC : C.length < 2 ^ 64) :
    receiverRun le
        ((senderRun le C.length C (fun _ => true)).msgs.map (fun m => Delivery.mk true m))
        idealWrites =
      some (RecvOutcome.done ⟨C.length, C, 1, false⟩) := by
  rw [senderRun_all_true]
  simp only [List.map_cons]
  have hlen8 : (Delivery.mk true (store64 le (htonll le C.length))).data.length = 8 :=
    store64_length le _
  rw [receiverRun_cons_ok le _ _ _ rfl (by rw [hlen8]; omega)]
  have hdata : (Delivery.mk true (store64 le (htonll le C.length))).data =
      store64 le (htonll le C.length) := rfl
  rw [hdata]
  have hdec : ntohll le (load64 le (store64 le (htonll le C.length))) = C.length := by
    rw [load64_store64 le _ (htonll_lt le _ hC), ntohll_htonll le _ hC]
  rw [hdec]
  have hrl := recvLoop_chunks C 0 0 [] 1 (by omega)
  simp only [Nat.zero_add, List.nil_append] at hrl
  rw [hrl]
  rfl

/-- Witness for C1 at the one-byte file `[7]`. -/
theorem c1_round_trip_witness :
    ([7] : List Nat).length < 2 ^ 64 ∧
      receiverRun true
          ((senderRun true ([7] : List Nat).length [7] (fun _ => true)).msgs.map
            (fun m => Delivery.mk true m))
          idealWrites =
        some (RecvOutcome.done ⟨([7] : List Nat).length, [7], 1, false⟩) :=
  ⟨by decide, c1_round_trip true [7] (by decide)⟩

/-- Claim C2: for every 64-bit length, the receiver's `ntohll` undoes the
sender's `htonll`, on both little-endian and big-endian hosts. -/
theorem c2_header_roundtrip (le : Bool) (L : Nat) (hL : L < 2 ^ 64) :
    ntohll le (htonll le L) = L :=
  ntohll_htonll le L hL

/-- Witness for C2 at `L = 5`, little-endian host. -/
theorem c2_header_roundtrip_witness :
    (5 : Nat) < 2 ^ 64 ∧ ntohll true (htonll true 5) = 5 :=
  ⟨by decide, c2_header_roundtrip true 5 (by decide)⟩

/-- Claim C3 counterexample: a sender run whose reads sum to 5 bytes while
the header declared 10 still reports success — there is no short-read
check anywhere in the client, so no `ShortReadError` can occur. -/
theorem c3_counterexample :
    (senderRun true 10 [1, 2, 3, 4, 5] (fun _ => true)).ok = true ∧
      (((senderRun true 10 [1, 2, 3, 4, 5] (fun _ => true)).msgs.tail.map List.length).sum
        = 5) ∧
      (5 : Nat) ≠ 10 := by
  have h := senderRun_all_true true 10 [1, 2, 3, 4, 5]
  have hc : chunks [1, 2, 3, 4, 5] = [[1, 2, 3, 4, 5]] :=
    chunks_small _ (by decide) (by decide)
  rw [h, hc]
  exact ⟨rfl, rfl, by decide⟩

/-- Claim C3 (amended): the sender performs no short-read detection: when
every send completion succeeds, it emits the header carrying `declared`
followed by exactly the chunks of the content `fread` produced and reports
success, regardless of whether those bytes sum to `declared`. -/
theorem c3_sender_no_short_read_check (le : Bool) (declared : Nat) (content : List Nat) :
    senderRun le declared content (fun _ => true) =
      ⟨store64 le (htonll le declared) :: chunks content, true⟩ :=
  senderRun_all_true le declared content

/-- Claim C4 counterexample: a receiver run in which the first `write` is
asked for 2 bytes but returns only 1 (a short write, no error return)
completes without aborting: the short count is silently accumulated, the
loop continues, and the run ends as a normal 2-byte completion with the
corrupted file `[5, 7]` — no fatal `IOError` for the session. -/
theorem c4_counterexample :
    receiverRun true
        [⟨true, store64 true (htonll true 2)⟩, ⟨true, [5, 6]⟩, ⟨true, [7]⟩]
        (fun i g => if i = 0 then some 1 else some g) =
      some (RecvOutcome.done ⟨2, [5, 7], 1, false⟩) ∧
    (1 : Nat) < 2 := by
  constructor
  · rfl
  · decide

/-- Claim C4 (amended): a failed completion stops the loop reporting the
current total, and a `write` that returns an error stops the loop the same
way; but a `write` that returns fewer bytes than requested is not detected:
the short count is added to the total and the loop simply continues. -/
theorem c4_error_handling (fs : Nat) (ws : Nat → Nat → Option Nat) (d : Delivery)
    (rest : List Delivery) (widx total : Nat) (file : List Nat) (out : Nat)
    (hlt : total < fs) :
    (d.ok = false →
      recvLoop fs ws (d :: rest) widx total file out = some ⟨total, file, out - 1, true⟩) ∧
    (d.ok = true → 0 < d.data.length → ws widx d.data.length = none →
      recvLoop fs ws (d :: rest) widx total file out = some ⟨total, file, out - 1, true⟩) ∧
    (∀ w, d.ok = true → 0 < d.data.length → ws widx d.data.length = some w →
      recvLoop fs ws (d :: rest) widx total file out =
        recvLoop fs ws rest (widx + 1) (total + w) (file ++ d.data.take w) (out - 1 + 1)) :=
  ⟨fun hok => recvLoop_cons_failed fs ws d rest widx total file out hlt hok,
   fun hok hpos hw => recvLoop_cons_werr fs ws d rest widx total file out hlt hok hpos hw,
   fun w hok hpos hw => recvLoop_cons_ok fs ws d rest widx total file out w hlt hok hpos hw⟩

/-- Witness for C4 at a concrete failed completion. -/
theorem c4_error_handling_witness :
    ((Delivery.mk false [] : Delivery).ok = false →
      recvLoop 5 idealWrites [Delivery.mk false []] 0 0 [] 1 = some ⟨0, [], 0, true⟩) ∧
    ((Delivery.mk false [] : Delivery).ok = true →
      0 < (Delivery.mk false [] : Delivery).data.length →
      idealWrites 0 (Delivery.mk false [] : Delivery).data.length = none →
      recvLoop 5 idealWrites [Delivery.mk false []] 0 0 [] 1 = some ⟨0, [], 0, true⟩) ∧
    (∀ w, (Delivery.mk false [] : Delivery).ok = true →
      0 < (Delivery.mk false [] : Delivery).data.length →
      idealWrites 0 (Delivery.mk false [] : Delivery).data.length = some w →
      recvLoop 5 idealWrites [Delivery.mk false []] 0 0 [] 1 =
        recvLoop 5 idealWrites [] (0 + 1) (0 + w) ([] ++ (Delivery.mk false [] : Delivery).data.take w)
          (1 - 1 + 1)) :=
  c4_error_handling 5 idealWrites (Delivery.mk false []) [] 0 0 [] 1 (by decide)

/-- Claim C5 counterexample: a receiver run whose header declares length 1
but whose single data completion delivers 2 bytes exits the loop with
`total = 2 > 1`: the loop guard is `total < file_size`, so an oversized
final chunk overshoots the declared length and the run still ends as a
normal, non-aborted completion — `bytes_transferred ≤ total_length` fails
and the exit equality fails. -/
theorem c5_counterexample :
    receiverRun true [⟨true, store64 true (htonll true 1)⟩, ⟨true, [0, 0]⟩] idealWrites =
      some (RecvOutcome.done ⟨2, [0, 0], 1, false⟩) ∧
    ntohll true (load64 true (store64 true (htonll true 1))) = 1 ∧
    ¬ ((2 : Nat) ≤ 1) := by
  refine ⟨rfl, rfl, by decide⟩

/-- Claim C5 (amended): the receiver's `total` starts at 0 (the write loop
is entered with `total = 0` right after the header), never decreases, and a
normal exit guarantees `total ≥ total_length`; the stronger claimed bound
`total ≤ total_length` (with exit exactly at equality) holds only under the
additional assumption that each `write` returns at most its request and the
delivered byte counts fit within the declared length, as with an honest
sender. -/
theorem c5_total_invariants (fs : Nat) (ws : Nat → Nat → Option Nat) (ds : List Delivery)
    (widx total : Nat) (file : List Nat) (out : Nat) (r : RecvResult)
    (h : recvLoop fs ws ds widx total file out = some r) :
    total ≤ r.total ∧
    (r.aborted = false → fs ≤ r.total) ∧
    ((∀ i g w, ws i g = some w → w ≤ g) → total + sumLen ds ≤ fs →
      r.total ≤ fs ∧ (r.aborted = false → r.total = fs)) ∧
    (∀ le hd rest, hd.ok = true → ¬ hd.data.length < 8 →
      receiverRun le (hd :: rest) ws =
        (recvLoop (ntohll le (load64 le hd.data)) ws rest 0 0 [] 1).map RecvOutcome.done) := by
  have h1 := recvLoop_invariant fs ws ds widx total file out r h
  refine ⟨h1.1, fun hab => (h1.2 hab).1, fun hws hfit => ?_, ?_⟩
  · have h2 := recvLoop_le_of_fits fs ws hws ds widx total file out r h hfit
    exact ⟨h2, fun hab => Nat.le_antisymm h2 ((h1.2 hab).1)⟩
  · intro le hd rest hok hlen
    exact receiverRun_cons_ok le hd rest ws hok hlen

/-- Witness for C5 at a one-chunk run matching the declared length. -/
theorem c5_total_invariants_witness :
    (0 : Nat) ≤ (⟨1, [9], 1, false⟩ : RecvResult).total ∧
    ((⟨1, [9], 1, false⟩ : RecvResult).aborted = false →
      1 ≤ (⟨1, [9], 1, false⟩ : RecvResult).total) ∧
    ((∀ i g w, idealWrites i g = some w → w ≤ g) →
      0 + sumLen [⟨true, [9]⟩] ≤ 1 →
      (⟨1, [9], 1, false⟩ : RecvResult).total ≤ 1 ∧
        ((⟨1, [9], 1, false⟩ : RecvResult).aborted = false →
          (⟨1, [9], 1, false⟩ : RecvResult).total = 1)) ∧
    (∀ le hd rest, hd.ok = true → ¬ hd.data.length < 8 →
      receiverRun le (hd :: rest) idealWrites =
        (recvLoop (ntohll le (load64 le hd.data)) idealWrites rest 0 0 [] 1).map
          RecvOutcome.done) :=
  c5_total_invariants 1 idealWrites [⟨true, [9]⟩] 0 0 [] 1 ⟨1, [9], 1, false⟩ (by decide)

/-- Claim C6: the sender emits exactly `ceil(L / 4096)` data messages after
the header, in file order, each carrying between 1 and `BUF_SIZE` bytes,
whose byte counts sum to exactly `L`; an empty file yields no data message,
a `BUF_SIZE`-byte file exactly one, and a `BUF_SIZE + 1`-byte file exactly
two, the second carrying one byte. -/
theorem c6_chunking (C : List Nat) :
    (chunks C).length = (C.length + 4095) / 4096 ∧
    (∀ m ∈ chunks C, 0 < m.length ∧ m.length ≤ BUF_SIZE) ∧
    (chunks C).flatten = C ∧
    ((chunks C).map List.length).sum = C.length ∧
    (C.length = 0 → chunks C = []) ∧
    (C.length = BUF_SIZE → (chunks C).length = 1) ∧
    (C.length = BUF_SIZE + 1 →
      chunks C = [C.take BUF_SIZE, C.drop BUF_SIZE] ∧ (C.drop BUF_SIZE).length = 1) := by
  refine ⟨chunks_length C, chunks_mem C, chunks_flatten C, ?_, ?_, ?_, ?_⟩
  · have hf := chunks_flatten C
    calc ((chunks C).map List.length).sum = (chunks C).flatten.length :=
          (List.length_flatten (chunks C)).symm
      _ = C.length := by rw [hf]
  · intro h0
    rw [List.length_eq_zero.mp h0, chunks_nil]
  · intro h1
    rw [chunks_length C, h1]
    decide
  · intro h2
    have hne : C ≠ [] := by
      intro hc
      rw [hc] at h2
      cases h2
    have hdl : (C.drop BUF_SIZE).length = 1 := by
      rw [List.length_drop, h2]
      omega
    refine ⟨?_, hdl⟩
    rw [chunks_cons C hne]
    have hdn : C.drop BUF_SIZE ≠ [] := by
      intro hc
      rw [hc] at hdl
      cases hdl
    rw [chunks_small (C.drop BUF_SIZE) hdn (by rw [hdl]; decide)]

/-- Witness for C6 at the file `[1, 2, 3]`. -/
theorem c6_chunking_witness :
    (chunks [1, 2, 3]).length = (([1, 2, 3] : List Nat).length + 4095) / 4096 ∧
    (∀ m ∈ chunks [1, 2, 3], 0 < m.length ∧ m.length ≤ BUF_SIZE) ∧
    (chunks [1, 2, 3]).flatten = [1, 2, 3] ∧
    ((chunks [1, 2, 3]).map List.length).sum = ([1, 2, 3] : List Nat).length ∧
    (([1, 2, 3] : List Nat).length = 0 → chunks [1, 2, 3] = []) ∧
    (([1, 2, 3] : List Nat).length = BUF_SIZE → (chunks [1, 2, 3]).length = 1) ∧
    (([1, 2, 3] : List Nat).length = BUF_SIZE + 1 →
      chunks [1, 2, 3] = [([1, 2, 3] : List Nat).take BUF_SIZE,
        ([1, 2, 3] : List Nat).drop BUF_SIZE] ∧
      (([1, 2, 3] : List Nat).drop BUF_SIZE).length = 1) :=
  c6_chunking [1, 2, 3]

/-- Claim C7: a successfully delivered first message of fewer than 8 bytes
makes the receiver exit with the header-too-small error before the
destination file is opened; otherwise the decoded `total_length` is the
big-endian value of the first 8 delivered bytes. -/
theorem c7_header_check (le : Bool) (hd : Delivery) (rest : List Delivery)
    (ws : Nat → Nat → Option Nat) (hok : hd.ok = true) :
    (hd.data.length < 8 →
      receiverRun le (hd :: rest) ws = some RecvOutcome.headerTooSmall ∧
      opensFile RecvOutcome.headerTooSmall = false) ∧
    (8 ≤ hd.data.length → (∀ b ∈ hd.data, b < 256) →
      ntohll le (load64 le hd.data) = beVal8 hd.data) := by
  constructor
  · intro hlen
    exact ⟨by simp [receiverRun, hok, hlen], rfl⟩
  · intro hlen hb
    exact ntohll_load64_eq_beVal8 le hd.data hlen hb

/-- Witness for C7 at a 3-byte first message. -/
theorem c7_header_check_witness :
    ((Delivery.mk true [1, 2, 3] : Delivery).data.length < 8 →
      receiverRun true [Delivery.mk true [1, 2, 3]] idealWrites =
        some RecvOutcome.headerTooSmall ∧
      opensFile RecvOutcome.headerTooSmall = false) ∧
    (8 ≤ (Delivery.mk true [1, 2, 3] : Delivery).data.length →
      (∀ b ∈ (Delivery.mk true [1, 2, 3] : Delivery).data, b < 256) →
      ntohll true (load64 true (Delivery.mk true [1, 2, 3] : Delivery).data) =
        beVal8 (Delivery.mk true [1, 2, 3] : Delivery).data) :=
  c7_header_check true (Delivery.mk true [1, 2, 3]) [] idealWrites rfl

/-- Claim C8 counterexample: the claimed teardown order does not match the
code.  On the success path the client destroys the queue pair before
deregistering the memory region, the completion queue and protection
domain are never released at all (no `ibv_destroy_cq` or `ibv_dealloc_pd`
call exists), and the `exit(1)` error paths release nothing even though
resources were already acquired. -/
theorem c8_counterexample :
    REvent.rel RRes.cq ∉ clientTrace ∧
    REvent.rel RRes.pd ∉ clientTrace ∧
    releasesOf clientTrace ≠
      [REvent.rel RRes.mr, REvent.rel RRes.qp, REvent.rel RRes.cq, REvent.rel RRes.pd,
       REvent.rel RRes.connId, REvent.rel RRes.buffer, REvent.rel RRes.eventChannel] ∧
    REvent.acq RRes.mr ∈ clientTrace ∧
    clientErrorPathReleases = [] := by
  decide

/-- Claim C8 (amended): on the success path both roles tear down in the
order destroy queue pair, deregister memory region, free buffer, destroy
connection id(s), destroy event channel — the queue pair is destroyed
before the memory region is deregistered, the completion queue and
protection domain are never released, and every `exit(1)` error path
terminates without releasing any acquired RDMA resource. -/
theorem c8_teardown_order :
    releasesOf clientTrace =
      [REvent.rel RRes.qp, REvent.rel RRes.mr, REvent.rel RRes.buffer,
       REvent.rel RRes.connId, REvent.rel RRes.eventChannel] ∧
    releasesOf serverTrace =
      [REvent.rel RRes.qp, REvent.rel RRes.mr, REvent.rel RRes.buffer,
       REvent.rel RRes.connId, REvent.rel RRes.listenId, REvent.rel RRes.eventChannel] ∧
    REvent.rel RRes.cq ∉ clientTrace ∧
    REvent.rel RRes.pd ∉ clientTrace ∧
    REvent.rel RRes.cq ∉ serverTrace ∧
    REvent.rel RRes.pd ∉ serverTrace ∧
    REvent.acq RRes.cq ∈ clientTrace ∧
    REvent.acq RRes.pd ∈ clientTrace ∧
    clientErrorPathReleases = [] ∧
    serverErrorPathReleases = [] := by
  decide

/-- Claim C9: a successfully delivered zero-byte chunk makes no progress:
the receiver writes nothing, leaves `total` and the file unchanged, and
re-posts a receive; consequently a delivery stream consisting solely of
successful zero-byte completions never lets the write loop terminate while
`total` is still below the declared length. -/
theorem c9_zero_chunk_no_progress (fs : Nat) (ws : Nat → Nat → Option Nat)
    (d : Delivery) (rest ds : List Delivery) (widx total : Nat) (file : List Nat)
    (out : Nat) (hlt : total < fs) (hok : d.ok = true) (hz : d.data.length = 0) :
    recvLoop fs ws (d :: rest) widx total file out =
      recvLoop fs ws rest widx total file (out - 1 + 1) ∧
    ((∀ x ∈ ds, x.ok = true ∧ x.data.length = 0) →
      recvLoop fs ws ds widx total file out = none) :=
  ⟨recvLoop_cons_zero fs ws d rest widx total file out hlt hok hz,
   fun hall => recvLoop_zero_stuck fs ws ds widx total file out hall hlt⟩

/-- Witness for C9 at declared length 1 and a zero-byte delivery. -/
theorem c9_zero_chunk_no_progress_witness :
    (recvLoop 1 idealWrites [Delivery.mk true []] 0 0 [] 1 =
      recvLoop 1 idealWrites [] 0 0 [] (1 - 1 + 1)) ∧
    ((∀ x ∈ [Delivery.mk true []], x.ok = true ∧ x.data.length = 0) →
      recvLoop 1 idealWrites [Delivery.mk true []] 0 0 [] 1 = none) :=
  c9_zero_chunk_no_progress 1 idealWrites (Delivery.mk true []) [] [Delivery.mk true []]
    0 0 [] 1 (by decide) rfl rfl

/-- Claim C10: every receiver run that ends in a normal (non-aborted)
completion — including the empty-file case, where the loop body never
runs — has re-posted a receive after its last consumed completion, so
exactly one receive work request is outstanding when the loop exits. -/
theorem c10_one_outstanding_at_exit (le : Bool) (ds : List Delivery)
    (ws : Nat → Nat → Option Nat) (r : RecvResult)
    (h : receiverRun le ds ws = some (RecvOutcome.done r)) (hab : r.aborted = false) :
    r.outstanding = 1 := by
  cases ds with
  | nil => simp [receiverRun] at h
  | cons hd rest =>
    by_cases hok : hd.ok = true
    · by_cases hlen : hd.data.length < 8
      · simp [receiverRun, hok, hlen] at h
      · rw [receiverRun_cons_ok le hd rest ws hok hlen] at h
        cases hr : recvLoop (ntohll le (load64 le hd.data)) ws rest 0 0 [] 1 with
        | none =>
          rw [hr] at h
          cases h
        | some r0 =>
          rw [hr] at h
          simp only [Option.map_some', Option.some.injEq, RecvOutcome.done.injEq] at h
          rw [← h] at hab ⊢
          exact ((recvLoop_invariant _ ws rest 0 0 [] 1 r0 hr).2 hab).2 (by omega)
    · have hko : hd.ok = false := by
        cases hdo : hd.ok
        · rfl
        · exact absurd hdo hok
      simp [receiverRun, hko] at h

/-- Witness for C10 at the empty-file run (header declares 0). -/
theorem c10_one_outstanding_at_exit_witness :
    (⟨0, [], 1, false⟩ : RecvResult).outstanding = 1 :=
  c10_one_outstanding_at_exit true [Delivery.mk true (store64 true (htonll true 0))]
    idealWrites ⟨0, [], 1, false⟩ (by decide) rfl
